import Mathlib

/-!
Verification of the remote HTTP gateway in `src/utils/graphqlHelpers.ts`:
the token-validation cache, `verifyOAuthToken`, the auth middleware and the
session routing endpoints. JS `Map`s are modelled as insertion-ordered
association lists; external library calls (SHA-256 hex digest, base64+JSON
payload decoding, the identity-provider `fetch`) are passed as parameters.
-/

namespace ShopifyGateway

/-- A token-validation cache value: `{ userInfo, expiry }` with `expiry` in
milliseconds since the epoch (line 111). -/
structure CacheEntry (U : Type) where
  userInfo : U
  expiry : Int
deriving DecidableEq

/-- The token cache `_tokenCache`: a JS `Map` from SHA-256 hex digest to entry,
modelled as an insertion-ordered association list (distinct keys). -/
abbrev Cache (U : Type) := List (String × CacheEntry U)

/-- The keys of a JS `Map` modelled as an association list. -/
def keysOf {α : Type} (m : List (String × α)) : List String := m.map Prod.fst

/-- JS `Map.get`. -/
def mapGet {α : Type} (m : List (String × α)) (k : String) : Option α :=
  (m.find? fun p => p.1 == k).map Prod.snd

/-- JS `Map.has`. -/
def mapHas {α : Type} (m : List (String × α)) (k : String) : Bool :=
  (mapGet m k).isSome

/-- JS `Map.set`: update in place when the key is present, append otherwise. -/
def mapSet {α : Type} (m : List (String × α)) (k : String) (v : α) :
    List (String × α) :=
  match m with
  | [] => [(k, v)]
  | p :: rest => if p.1 == k then (k, v) :: rest else p :: mapSet rest k v

/-- JS `Map.delete`. -/
def mapDelete {α : Type} (m : List (String × α)) (k : String) :
    List (String × α) :=
  m.filter fun p => p.1 != k

/-- The sort comparator `(a, b) => a[1].expiry - b[1].expiry` (line 218) as the
corresponding total preorder on cache entries. -/
def expLE {U : Type} (a b : String × CacheEntry U) : Prop :=
  a.2.expiry ≤ b.2.expiry

instance {U : Type} : DecidableRel (@expLE U) :=
  fun a b => inferInstanceAs (Decidable (a.2.expiry ≤ b.2.expiry))

/-- Lines 216–224: after an insert, if the cache size exceeds the maximum, sort
the entries by ascending expiry (JS `Array.prototype.sort` is stable, modelled
by a stable insertion sort) and delete the first `size - max` keys one by
one. -/
def enforceLimit {U : Type} (c : Cache U) (maxSize : Nat) : Cache U :=
  if c.length > maxSize then
    let sorted := c.insertionSort expLE
    let toRemove := c.length - maxSize
    ((sorted.take toRemove).map Prod.fst).foldl mapDelete c
  else c

/-- Lines 180–189 of `verifyOAuthToken`: consult the cache; an entry with
`now < expiry` is a hit, a present but stale entry is deleted (lazy expiry),
an absent key is a plain miss. -/
def cacheLookup {U : Type} (c : Cache U) (digest : String) (now : Int) :
    Option (CacheEntry U) × Cache U :=
  match mapGet c digest with
  | some cached =>
    if now < cached.expiry then (some cached, c) else (none, mapDelete c digest)
  | none => (none, c)

/-- JS `String.prototype.split` with a single-character separator (line 134). -/
def splitOnChar (sep : Char) : List Char → List (List Char)
  | [] => [[]]
  | c :: rest =>
    let r := splitOnChar sep rest
    if c = sep then [] :: r
    else
      match r with
      | [] => [[c]]
      | h :: t => (c :: h) :: t

/-- The object produced by base64-decoding and `JSON.parse`ing the middle JWT
segment, reduced to the single field the code reads: `exp` when present with a
numeric value (the decode itself, `Buffer.from(..., 'base64')` plus
`JSON.parse`, is an external library call passed as a parameter; `none` models
a thrown parse error, caught at line 152). -/
structure JwtPayload where
  exp : Option Int

/-- Line 141: `'='.repeat((4 - (payloadB64.length % 4)) % 4)` appended to the
payload segment before decoding. -/
def padB64 (p : List Char) : List Char :=
  p ++ List.replicate ((4 - p.length % 4) % 4) '='

/-- Lines 143–151: read the `exp` claim off the decoded payload (`none` for a
decode/parse failure) and return it in milliseconds; the JS truthiness test
`if (exp && typeof exp === 'number')` drops `exp = 0`. -/
def expiryOfPayload (payload : Option JwtPayload) : Option Int :=
  match payload with
  | some p =>
    match p.exp with
    | some e => if e ≠ 0 then some (e * 1000) else none
    | none => none
  | none => none

/-- `getTokenExpiry` (lines 132–156): split the token on dots, require exactly
three segments, decode the padded middle segment, and read the `exp` claim;
`none` for opaque or unparseable tokens. -/
def getTokenExpiry (decodePayload : List Char → Option JwtPayload)
    (token : String) : Option Int :=
  match splitOnChar '.' token.toList with
  | [_hdr, payloadB64, _sig] => expiryOfPayload (decodePayload (padB64 payloadB64))
  | _ => none

/-- JS truthiness of a number-or-null value: `null` and `0` are falsy. -/
def jsTruthyInt : Option Int → Bool
  | some e => e != 0
  | none => false

/-- Outcome of the `fetch` on the identity provider's `/userinfo` endpoint
(external collaborator): an ok response with parsed user info, a non-ok status,
or a thrown network error (caught at lines 227–230). -/
inductive ProviderResult (U : Type) where
  | ok (userInfo : U)
  | rejected (status : Nat)
  | netError
deriving DecidableEq

/-- What one call to `verifyOAuthToken` produces: the returned value (`none` is
the JS `null`, i.e. Invalid), the token cache afterwards, and whether the
`/userinfo` fetch was performed. -/
structure VerifyOutcome (U : Type) where
  result : Option U
  cache : Cache U
  providerCalled : Bool
deriving DecidableEq

/-- `verifyOAuthToken` (lines 161–231). `auth0Configured` models `AUTH0_DOMAIN`
being set, `hash` is the external SHA-256 hex digest (`hashToken`, lines
124–126), `decodePayload` the external base64+JSON decode, `provider` the reply
the single `/userinfo` fetch would give, `ttl`/`maxSize` the cache
configuration, `now` the value of `Date.now()`. -/
def verifyOAuthToken {U : Type} (auth0Configured : Bool) (hash : String → String)
    (decodePayload : List Char → Option JwtPayload) (ttl : Int) (maxSize : Nat)
    (cache : Cache U) (token : String) (now : Int) (provider : ProviderResult U) :
    VerifyOutcome U :=
  if !auth0Configured then ⟨none, cache, false⟩
  else
    let tokenHash := hash token
    let tokenExpiry := getTokenExpiry decodePayload token
    if jsTruthyInt tokenExpiry && decide (tokenExpiry.getD 0 ≤ now) then
      ⟨none, mapDelete cache tokenHash, false⟩
    else
      match cacheLookup cache tokenHash now with
      | (some cached, c1) => ⟨some cached.userInfo, c1, false⟩
      | (none, c1) =>
        match provider with
        | .ok userInfo =>
          let cacheExpiry := now + ttl
          let expiry :=
            if jsTruthyInt tokenExpiry then min cacheExpiry (tokenExpiry.getD 0)
            else cacheExpiry
          ⟨some userInfo, enforceLimit (mapSet c1 tokenHash ⟨userInfo, expiry⟩) maxSize, true⟩
        | .rejected _ => ⟨none, c1, true⟩
        | .netError => ⟨none, c1, true⟩

/-- The request data the middleware and routes read: `req.path`, `req.method`,
and the (lowercased by Express) `authorization` header when present. -/
structure Request where
  path : String
  method : String
  authorization : Option String
deriving DecidableEq

/-- JS `String.prototype.startsWith`. -/
def strStartsWith (s pfx : String) : Bool :=
  pfx.toList.isPrefixOf s.toList

/-- JS `String.prototype.replace(pat, '')` with a string pattern: remove the
first occurrence of `pat` only (line 251). -/
def removeFirstOcc (l pat : List Char) : List Char :=
  match l with
  | [] => []
  | c :: rest =>
    if pat.isPrefixOf (c :: rest) then (c :: rest).drop pat.length
    else c :: removeFirstOcc rest pat

/-- The whitespace class removed by JS `String.prototype.trim`. -/
def isJsSpace (c : Char) : Bool :=
  c == ' ' || c == '\t' || c == '\n' || c == '\r' || c.val == 11 || c.val == 12 ||
    c.val == 160 || c.val == 0xfeff || c.val == 0x2028 || c.val == 0x2029

/-- JS `String.prototype.trim`. -/
def jsTrim (l : List Char) : List Char :=
  ((l.dropWhile isJsSpace).reverse.dropWhile isJsSpace).reverse

/-- Line 251: `authHeader.replace('Bearer ', '').trim()`. -/
def extractToken (authHeader : String) : String :=
  String.mk (jsTrim (removeFirstOcc authHeader.toList "Bearer ".toList))

/-- The `WWW-Authenticate` value set when no token is supplied (lines
256–259). -/
def challengeNoToken (serverUrl : String) : String :=
  "Bearer realm=\"" ++ serverUrl ++ "\", resource_metadata=\"" ++ serverUrl ++
    "/.well-known/oauth-protected-resource\""

/-- The `WWW-Authenticate` value set when a supplied token is rejected (lines
271–274). -/
def challengeInvalid (serverUrl : String) : String :=
  "Bearer realm=\"" ++ serverUrl ++ "\", error=\"invalid_token\", resource_metadata=\"" ++
    serverUrl ++ "/.well-known/oauth-protected-resource\""

/-- Observable outcome of one `authMiddleware` run: whether `next()` was
invoked, the response status sent (if any), the `WWW-Authenticate` header set
(if any), and the token handed to `verifyOAuthToken` (if the validator ran). -/
structure GateResult where
  calledNext : Bool
  status : Option Nat
  wwwAuthenticate : Option String
  verifiedToken : Option String
deriving DecidableEq

/-- `authMiddleware` (lines 236–286). `auth0Configured` models `AUTH0_DOMAIN`
being set; `verifyOk tok` abstracts whether `verifyOAuthToken tok` resolved to
a non-null `userInfo`. -/
def authMiddleware (auth0Configured : Bool) (serverUrl : String)
    (verifyOk : String → Bool) (req : Request) : GateResult :=
  if req.path == "/health" || strStartsWith req.path "/.well-known/" ||
      req.method == "OPTIONS" then
    ⟨true, none, none, none⟩
  else if strStartsWith req.path "/mcp" then
    if !auth0Configured then ⟨false, some 500, none, none⟩
    else
      let authHeader := req.authorization.getD ""
      let token := extractToken authHeader
      if token == "" then ⟨false, some 401, some (challengeNoToken serverUrl), none⟩
      else if verifyOk token then ⟨true, none, none, some token⟩
      else ⟨false, some 401, some (challengeInvalid serverUrl), some token⟩
  else ⟨true, none, none, none⟩

/-- The session registry `transports` (line 394): session id → live transport,
the transport handle abstracted as a numeric identity. -/
abbrev Registry := List (String × Nat)

/-- JS truthiness of the `mcp-session-id` header value: absent or `''` is
falsy. -/
def jsTruthyStr : Option String → Bool
  | some s => s != ""
  | none => false

/-- Routing outcome of `app.post('/mcp')`: forward to an existing session's
transport, create a fresh transport/session, or answer with a JSON-RPC error
envelope (status, `error.code`, whether `id` is `null`). -/
inductive PostOutcome where
  | reuse (transport : Nat)
  | create
  | reject (status : Nat) (code : Int) (idNull : Bool)
deriving DecidableEq

/-- `app.post('/mcp')` routing (lines 397–445), up to handing the request to a
transport: a truthy known session id is reused; no (truthy) session id plus an
initialize body creates a session; anything else gets the 400 status with the
-32000 JSON-RPC error and a null id. -/
def handlePost (reg : Registry) (sessionId : Option String) (isInit : Bool) :
    PostOutcome :=
  if jsTruthyStr sessionId && mapHas reg (sessionId.getD "") then
    .reuse ((mapGet reg (sessionId.getD "")).getD 0)
  else if !jsTruthyStr sessionId && isInit then
    .create
  else
    .reject 400 (-32000) true

/-- Routing outcome of `app.delete('/mcp')`: a 400 text reply or a forward to
the session transport's close handling. -/
inductive DeleteOutcome where
  | invalid (status : Nat)
  | forwardClose (transport : Nat)
deriving DecidableEq

/-- `app.delete('/mcp')` (lines 485–504), up to handing the request to the
transport: a missing or unknown session id is answered with
400 `Invalid or missing session ID`. -/
def handleDelete (reg : Registry) (sessionId : Option String) : DeleteOutcome :=
  if !jsTruthyStr sessionId || !mapHas reg (sessionId.getD "") then .invalid 400
  else .forwardClose ((mapGet reg (sessionId.getD "")).getD 0)

/-- `transport.onclose` (lines 421–427): remove the registry entry if the
session id is set and still registered; otherwise leave the registry alone. -/
def oncloseHandler (reg : Registry) (sid : Option String) : Registry :=
  if jsTruthyStr sid && mapHas reg (sid.getD "") then mapDelete reg (sid.getD "")
  else reg

/-! ### Helper lemmas about the `Map` model -/

theorem mapSet_eq_append_of_not_mem {α : Type} (m : List (String × α)) (k : String)
    (v : α) (h : k ∉ keysOf m) : mapSet m k v = m ++ [(k, v)] := by
  induction m with
  | nil => rfl
  | cons p rest ih =>
    simp only [keysOf, List.map_cons, List.mem_cons, not_or] at h
    simp only [mapSet, beq_iff_eq]
    rw [if_neg (fun hpk => h.1 hpk.symm), ih (by simpa [keysOf] using h.2)]
    rfl

theorem length_mapSet_of_mem {α : Type} (m : List (String × α)) (k : String) (v : α)
    (hk : k ∈ keysOf m) : (mapSet m k v).length = m.length := by
  induction m with
  | nil => simp [keysOf] at hk
  | cons p rest ih =>
    simp only [keysOf, List.map_cons, List.mem_cons] at hk
    by_cases hpk : p.1 = k
    · simp [mapSet, hpk]
    · have hr : k ∈ keysOf rest := by
        rcases hk with h | h
        · exact absurd h.symm hpk
        · exact h
      simp [mapSet, hpk, ih hr]

theorem length_mapDelete_of_mem {α : Type} (m : List (String × α)) (k : String)
    (hn : (keysOf m).Nodup) (hk : k ∈ keysOf m) :
    (mapDelete m k).length + 1 = m.length := by
  induction m with
  | nil => simp [keysOf] at hk
  | cons p rest ih =>
    simp only [keysOf, List.map_cons, List.nodup_cons] at hn
    simp only [keysOf, List.map_cons, List.mem_cons] at hk
    by_cases hpk : p.1 = k
    · have hrest : mapDelete rest k = rest := by
        apply List.filter_eq_self.mpr
        intro a ha
        simp only [bne_iff_ne, ne_eq]
        intro hak
        apply hn.1
        have hmem : a.1 ∈ List.map Prod.fst rest := List.mem_map_of_mem Prod.fst ha
        rwa [hak, ← hpk] at hmem
      have hpred : (p.1 != k) = false := by simp [bne_iff_ne, hpk]
      simp only [mapDelete, List.filter_cons, hpred, Bool.false_eq_true, if_false,
        List.length_cons]
      simp only [mapDelete] at hrest
      rw [hrest]
    · have hr : k ∈ keysOf rest := by
        rcases hk with h | h
        · exact absurd h.symm hpk
        · exact h
      have hpred : (p.1 != k) = true := by simpa [bne_iff_ne] using hpk
      have hrec := ih hn.2 hr
      simp only [mapDelete, List.filter_cons, hpred, if_true, List.length_cons]
      simp only [mapDelete] at hrec
      omega

theorem mem_of_mem_mapDelete {α : Type} (m : List (String × α)) (k : String)
    (p : String × α) (h : p ∈ mapDelete m k) : p ∈ m :=
  (List.mem_filter.mp h).1

theorem mem_keysOf_mapDelete {α : Type} (m : List (String × α)) (k k' : String)
    (h : k' ∈ keysOf (mapDelete m k)) : k' ∈ keysOf m := by
  simp only [keysOf, List.mem_map] at h ⊢
  obtain ⟨p, hp, rfl⟩ := h
  exact ⟨p, mem_of_mem_mapDelete m k p hp, rfl⟩

theorem mem_keysOf_mapSet {α : Type} (m : List (String × α)) (k k' : String) (v : α)
    (h : k' ∈ keysOf (mapSet m k v)) : k' ∈ keysOf m ∨ k' = k := by
  induction m with
  | nil =>
    simp only [mapSet, keysOf, List.map_cons, List.map_nil, List.mem_singleton] at h
    right; exact h
  | cons p rest ih =>
    by_cases hpk : p.1 = k
    · simp only [mapSet, hpk, beq_self_eq_true, if_true, keysOf, List.map_cons,
        List.mem_cons] at h
      rcases h with h | h
      · right; exact h
      · left; simp [keysOf, List.mem_cons]; right; simpa [keysOf] using h
    · simp only [mapSet, beq_iff_eq, hpk, if_false, keysOf, List.map_cons,
        List.mem_cons] at h
      rcases h with h | h
      · left; simp [keysOf, h]
      · rcases ih (by simpa [keysOf] using h) with h2 | h2
        · left; simp [keysOf] at h2 ⊢; right; exact h2
        · right; exact h2

theorem mem_foldl_mapDelete {α : Type} (ks : List String) (m : List (String × α))
    (p : String × α) (h : p ∈ ks.foldl mapDelete m) : p ∈ m := by
  induction ks generalizing m with
  | nil => simpa using h
  | cons k rest ih =>
    rw [List.foldl_cons] at h
    exact mem_of_mem_mapDelete m k p (ih (mapDelete m k) h)

theorem mem_keysOf_enforceLimit {U : Type} (m : Cache U) (N : Nat) (k : String)
    (h : k ∈ keysOf (enforceLimit m N)) : k ∈ keysOf m := by
  simp only [enforceLimit] at h
  split at h
  · simp only [keysOf, List.mem_map] at h ⊢
    obtain ⟨p, hp, rfl⟩ := h
    exact ⟨p, mem_foldl_mapDelete _ _ _ hp, rfl⟩
  · exact h

theorem enforceLimit_of_le {U : Type} (m : Cache U) (N : Nat) (h : m.length ≤ N) :
    enforceLimit m N = m := by
  unfold enforceLimit
  rw [if_neg (by omega)]

instance {U : Type} : IsTotal (String × CacheEntry U) expLE :=
  ⟨fun a b => Int.le_total a.2.expiry b.2.expiry⟩

instance {U : Type} : IsTrans (String × CacheEntry U) expLE :=
  ⟨fun _ _ _ hab hbc => le_trans hab hbc⟩

/-- When a cache holds one entry more than the limit, `enforceLimit` deletes
exactly one entry, one whose expiry is minimal over the whole cache. -/
theorem enforceLimit_evicts_min {U : Type} (m : Cache U) (N : Nat)
    (hn : (keysOf m).Nodup) (hlen : m.length = N + 1) :
    ∃ v ∈ m, (∀ p ∈ m, v.2.expiry ≤ p.2.expiry) ∧
      enforceLimit m N = mapDelete m v.1 ∧ (enforceLimit m N).length = N := by
  have hgt : m.length > N := by omega
  have hperm := List.perm_insertionSort (@expLE U) m
  have hsorted := List.sorted_insertionSort (@expLE U) m
  cases hs : m.insertionSort expLE with
  | nil =>
    rw [hs] at hperm
    have := hperm.length_eq
    simp at this
    omega
  | cons v rest =>
    have hvm : v ∈ m := by
      rw [hs] at hperm
      exact hperm.mem_iff.mp (List.mem_cons_self v rest)
    have hmin : ∀ p ∈ m, v.2.expiry ≤ p.2.expiry := by
      intro p hp
      rw [hs] at hperm hsorted
      rcases List.mem_cons.mp (hperm.mem_iff.mpr hp) with h | h
      · exact le_of_eq (by rw [h])
      · exact (List.pairwise_cons.mp hsorted).1 p h
    have htr : m.length - N = 1 := by omega
    have hE : enforceLimit m N = mapDelete m v.1 := by
      unfold enforceLimit
      rw [if_pos hgt]
      simp only [hs, htr, List.take_succ_cons, List.take_zero, List.map_cons,
        List.map_nil, List.foldl_cons, List.foldl_nil]
    have hL : (enforceLimit m N).length = N := by
      rw [hE]
      have := length_mapDelete_of_mem m v.1 hn (List.mem_map_of_mem Prod.fst hvm)
      omega
    exact ⟨v, hvm, hmin, hE, hL⟩

/-- The locally extracted expiry is never the (JS-falsy) value `0`: a literal
`exp` of `0` is dropped by the truthiness test inside `getTokenExpiry`, and any
other value is multiplied by 1000. -/
theorem expiryOfPayload_ne_some_zero (o : Option JwtPayload) (e : Int)
    (h : expiryOfPayload o = some e) : e ≠ 0 := by
  cases o with
  | none => exact absurd h (by simp [expiryOfPayload])
  | some p =>
    cases hexp : p.exp with
    | none =>
      simp only [expiryOfPayload, hexp] at h
      exact absurd h (by simp)
    | some e0 =>
      simp only [expiryOfPayload, hexp] at h
      by_cases h0 : e0 = 0
      · rw [if_neg (by simp [h0])] at h
        exact absurd h (by simp)
      · rw [if_pos h0] at h
        have he : e0 * 1000 = e := by simpa using h
        intro hz
        rw [hz] at he
        rcases mul_eq_zero.mp he with h1 | h1
        · exact h0 h1
        · omega

theorem getTokenExpiry_ne_some_zero (d : List Char → Option JwtPayload)
    (t : String) (e : Int) (h : getTokenExpiry d t = some e) : e ≠ 0 := by
  unfold getTokenExpiry at h
  split at h
  · exact expiryOfPayload_ne_some_zero _ _ h
  · exact absurd h (by simp)

/-- A cache hit leaves the cache untouched. -/
theorem cacheLookup_hit_cache_eq {U : Type} (c : Cache U) (d : String) (now : Int)
    (en : CacheEntry U) (c1 : Cache U) (h : cacheLookup c d now = (some en, c1)) :
    c1 = c := by
  cases hg : mapGet c d with
  | none =>
    simp only [cacheLookup, hg] at h
    exact absurd (Prod.mk.injEq .. ▸ h).1 (by simp)
  | some e0 =>
    simp only [cacheLookup, hg] at h
    by_cases hlt : now < e0.expiry
    · rw [if_pos hlt, Prod.mk.injEq] at h
      exact h.2.symm
    · rw [if_neg hlt, Prod.mk.injEq] at h
      exact absurd h.1 (by simp)

/-- A cache miss either found nothing (cache untouched) or found a stale entry
(deleted as a side effect). -/
theorem cacheLookup_miss_cases {U : Type} (c : Cache U) (d : String) (now : Int)
    (c1 : Cache U) (h : cacheLookup c d now = (none, c1)) :
    c1 = c ∨ ∃ en, mapGet c d = some en ∧ en.expiry ≤ now ∧ c1 = mapDelete c d := by
  cases hg : mapGet c d with
  | none =>
    simp only [cacheLookup, hg] at h
    rw [Prod.mk.injEq] at h
    left
    exact h.2.symm
  | some en0 =>
    simp only [cacheLookup, hg] at h
    by_cases hlt : now < en0.expiry
    · rw [if_pos hlt, Prod.mk.injEq] at h
      exact absurd h.1 (by simp)
    · rw [if_neg hlt, Prod.mk.injEq] at h
      right
      exact ⟨en0, rfl, by omega, h.2.symm⟩

/-! ### Claim theorems -/

/-- **C1.** For the token-validation cache configured with maximum size `N`
(lines 213–224): an insert never leaves more than `N` entries, and whenever
the insert of a new digest makes the cache hold `N + 1` entries, the cache is
trimmed back to exactly `N` entries by removing an entry whose `expiry` is
minimal among the `N + 1` (which may be the just-inserted one). -/
theorem tokenCache_capacity_min_expiry_eviction {U : Type} (c : Cache U)
    (k : String) (e : CacheEntry U) (N : Nat) (hn : (keysOf c).Nodup)
    (hle : c.length ≤ N) :
    (enforceLimit (mapSet c k e) N).length ≤ N ∧
    (c.length = N → k ∉ keysOf c →
      ∃ v ∈ mapSet c k e, (∀ p ∈ mapSet c k e, v.2.expiry ≤ p.2.expiry) ∧
        enforceLimit (mapSet c k e) N = mapDelete (mapSet c k e) v.1 ∧
        (enforceLimit (mapSet c k e) N).length = N) := by
  have hmain : ∀ (_ : c.length = N) (_ : k ∉ keysOf c),
      ∃ v ∈ mapSet c k e, (∀ p ∈ mapSet c k e, v.2.expiry ≤ p.2.expiry) ∧
        enforceLimit (mapSet c k e) N = mapDelete (mapSet c k e) v.1 ∧
        (enforceLimit (mapSet c k e) N).length = N := by
    intro hN hk
    have happ := mapSet_eq_append_of_not_mem c k e hk
    have hnod : (keysOf (mapSet c k e)).Nodup := by
      rw [happ]
      simp only [keysOf, List.map_append, List.map_cons, List.map_nil]
      rw [List.nodup_append]
      refine ⟨hn, List.nodup_singleton k, ?_⟩
      intro a ha hb
      simp only [List.mem_singleton] at hb
      subst hb
      exact hk ha
    have hlen1 : (mapSet c k e).length = N + 1 := by
      rw [happ]
      simp [hN]
    exact enforceLimit_evicts_min (mapSet c k e) N hnod hlen1
  constructor
  · by_cases hk : k ∈ keysOf c
    · have h1 := length_mapSet_of_mem c k e hk
      rw [enforceLimit_of_le _ _ (by omega)]
      omega
    · have happ := mapSet_eq_append_of_not_mem c k e hk
      by_cases h2 : c.length = N
      · obtain ⟨v, _, _, _, hL⟩ := hmain h2 hk
        omega
      · have hsmall : (mapSet c k e).length ≤ N := by
          rw [happ]
          simp only [List.length_append, List.length_cons, List.length_nil]
          omega
        rw [enforceLimit_of_le _ _ hsmall]
        exact hsmall
  · exact hmain

/-- Witness for `tokenCache_capacity_min_expiry_eviction`: max size 1, one
existing entry with expiry 5, a new digest with expiry 3 inserted; the cache is
trimmed to one entry by evicting a minimal-expiry entry. -/
theorem tokenCache_capacity_min_expiry_eviction_witness :
    (enforceLimit (mapSet ([("a", ⟨0, 5⟩)] : Cache Nat) "k" ⟨1, 3⟩) 1).length ≤ 1 ∧
    (∃ v ∈ mapSet ([("a", ⟨0, 5⟩)] : Cache Nat) "k" ⟨1, 3⟩,
      (∀ p ∈ mapSet ([("a", ⟨0, 5⟩)] : Cache Nat) "k" ⟨1, 3⟩,
        v.2.expiry ≤ p.2.expiry) ∧
      enforceLimit (mapSet ([("a", ⟨0, 5⟩)] : Cache Nat) "k" ⟨1, 3⟩) 1 =
        mapDelete (mapSet ([("a", ⟨0, 5⟩)] : Cache Nat) "k" ⟨1, 3⟩) v.1 ∧
      (enforceLimit (mapSet ([("a", ⟨0, 5⟩)] : Cache Nat) "k" ⟨1, 3⟩) 1).length = 1) :=
  ⟨(tokenCache_capacity_min_expiry_eviction [("a", ⟨0, 5⟩)] "k" ⟨1, 3⟩ 1
      (by decide) (by decide)).1,
    (tokenCache_capacity_min_expiry_eviction [("a", ⟨0, 5⟩)] "k" ⟨1, 3⟩ 1
      (by decide) (by decide)).2 rfl (by decide)⟩

/-- **C2.** With the provider domain configured, a token whose locally
extracted expiry instant is ≤ `now` makes `verifyOAuthToken` return Invalid
(`null`), delete any cache entry stored under the token digest, and skip the
identity-provider call entirely. -/
theorem verify_local_expiry_short_circuit {U : Type} (hash : String → String)
    (decodePayload : List Char → Option JwtPayload) (ttl : Int) (maxSize : Nat)
    (cache : Cache U) (token : String) (now : Int) (provider : ProviderResult U)
    (e : Int) (he : getTokenExpiry decodePayload token = some e) (hle : e ≤ now) :
    verifyOAuthToken true hash decodePayload ttl maxSize cache token now provider =
      ⟨none, mapDelete cache (hash token), false⟩ := by
  have h0 : e ≠ 0 := getTokenExpiry_ne_some_zero decodePayload token e he
  have hcond : (jsTruthyInt (getTokenExpiry decodePayload token) &&
      decide ((getTokenExpiry decodePayload token).getD 0 ≤ now)) = true := by
    rw [he]
    simp [jsTruthyInt, h0, hle]
  simp [verifyOAuthToken, hcond]

/-- Witness for `verify_local_expiry_short_circuit`: a three-segment token
whose payload decodes to `exp = 1` (expiry instant 1000 ms) checked at
`now = 2000`; the cached entry under its digest `"D"` is removed and the
provider is not called. -/
theorem verify_local_expiry_short_circuit_witness :
    getTokenExpiry (fun _ => some ⟨some 1⟩) "a.b.c" = some 1000 ∧
    verifyOAuthToken true (fun _ => "D") (fun _ => some ⟨some 1⟩) 120000 1000
        ([("D", ⟨(7 : Nat), 999999⟩)]) "a.b.c" 2000 (.rejected 401) =
      ⟨none, mapDelete [("D", ⟨7, 999999⟩)] "D", false⟩ :=
  ⟨by decide,
    verify_local_expiry_short_circuit (fun _ => "D") (fun _ => some ⟨some 1⟩)
      120000 1000 [("D", ⟨7, 999999⟩)] "a.b.c" 2000 (.rejected 401) 1000
      (by decide) (by decide)⟩

/-- **C7.** The cache lookup step of `verifyOAuthToken` (lines 180–189): a
present entry is returned as long as `now < expiry`; at `now ≥ expiry` it is a
miss and the stale entry is removed as a side effect; an absent digest is a
miss with the cache untouched. -/
theorem cacheLookup_lazy_expiry {U : Type} (c : Cache U) (digest : String)
    (now : Int) :
    (∀ en : CacheEntry U, mapGet c digest = some en → now < en.expiry →
      cacheLookup c digest now = (some en, c)) ∧
    (∀ en : CacheEntry U, mapGet c digest = some en → en.expiry ≤ now →
      cacheLookup c digest now = (none, mapDelete c digest)) ∧
    (mapGet c digest = none → cacheLookup c digest now = (none, c)) := by
  refine ⟨?_, ?_, ?_⟩
  · intro en hg hlt
    simp only [cacheLookup, hg, if_pos hlt]
  · intro en hg hle
    simp only [cacheLookup, hg]
    rw [if_neg (by omega)]
  · intro hg
    simp only [cacheLookup, hg]

/-- Witness for `cacheLookup_lazy_expiry`: one entry with expiry 10 is a hit at
`now = 3`, an expired miss (with removal) at `now = 10`, and an unknown digest
is a plain miss. -/
theorem cacheLookup_lazy_expiry_witness :
    mapGet ([("d", ⟨5, 10⟩)] : Cache Nat) "d" = some ⟨5, 10⟩ ∧
    cacheLookup ([("d", ⟨5, 10⟩)] : Cache Nat) "d" 3 =
      (some ⟨5, 10⟩, [("d", ⟨5, 10⟩)]) ∧
    cacheLookup ([("d", ⟨5, 10⟩)] : Cache Nat) "d" 10 =
      (none, mapDelete [("d", ⟨5, 10⟩)] "d") ∧
    cacheLookup ([("d", ⟨5, 10⟩)] : Cache Nat) "x" 3 = (none, [("d", ⟨5, 10⟩)]) :=
  ⟨by decide,
    (cacheLookup_lazy_expiry [("d", ⟨5, 10⟩)] "d" 3).1 ⟨5, 10⟩ (by decide) (by decide),
    (cacheLookup_lazy_expiry [("d", ⟨5, 10⟩)] "d" 10).2.1 ⟨5, 10⟩ (by decide) (by decide),
    (cacheLookup_lazy_expiry [("d", ⟨5, 10⟩)] "x" 3).2.2 (by decide)⟩

/-- Branch analysis of `verifyOAuthToken`: the only key a call can add to the
cache is the digest of the presented token; every other key was already
there. -/
theorem verify_cache_cases {U : Type} (cfg : Bool) (hash : String → String)
    (decodePayload : List Char → Option JwtPayload) (ttl : Int) (maxSize : Nat)
    (cache : Cache U) (token : String) (now : Int) (provider : ProviderResult U) :
    ∀ k ∈ keysOf (verifyOAuthToken cfg hash decodePayload ttl maxSize cache
      token now provider).cache, k ∈ keysOf cache ∨ k = hash token := by
  cases cfg with
  | false =>
    intro k hk
    left
    simpa [verifyOAuthToken] using hk
  | true =>
    cases hsc : (jsTruthyInt (getTokenExpiry decodePayload token) &&
        decide ((getTokenExpiry decodePayload token).getD 0 ≤ now)) with
    | true =>
      intro k hk
      have hk2 : k ∈ keysOf (mapDelete cache (hash token)) := by
        simpa [verifyOAuthToken, hsc] using hk
      exact Or.inl (mem_keysOf_mapDelete _ _ _ hk2)
    | false =>
      rcases hcl : cacheLookup cache (hash token) now with ⟨r, c1⟩
      have hsub1 : ∀ k ∈ keysOf c1, k ∈ keysOf cache := by
        cases r with
        | some en =>
          rw [cacheLookup_hit_cache_eq cache (hash token) now en c1 hcl]
          exact fun k hk => hk
        | none =>
          rcases cacheLookup_miss_cases cache (hash token) now c1 hcl with
            h | ⟨en, _, _, hdel⟩
          · rw [h]
            exact fun k hk => hk
          · rw [hdel]
            exact fun k hk => mem_keysOf_mapDelete cache (hash token) k hk
      cases r with
      | some en =>
        intro k hk
        have hk2 : k ∈ keysOf c1 := by
          simpa [verifyOAuthToken, hsc, hcl] using hk
        exact Or.inl (hsub1 k hk2)
      | none =>
        cases provider with
        | ok u =>
          intro k hk
          have hk2 : k ∈ keysOf (enforceLimit (mapSet c1 (hash token)
              ⟨u, if jsTruthyInt (getTokenExpiry decodePayload token) then
                    min (now + ttl) ((getTokenExpiry decodePayload token).getD 0)
                  else now + ttl⟩) maxSize) := by
            simpa [verifyOAuthToken, hsc, hcl] using hk
          rcases mem_keysOf_mapSet _ _ _ _ (mem_keysOf_enforceLimit _ _ _ hk2) with
            h | h
          · exact Or.inl (hsub1 k h)
          · exact Or.inr h
        | rejected s =>
          intro k hk
          have hk2 : k ∈ keysOf c1 := by
            simpa [verifyOAuthToken, hsc, hcl] using hk
          exact Or.inl (hsub1 k hk2)
        | netError =>
          intro k hk
          have hk2 : k ∈ keysOf c1 := by
            simpa [verifyOAuthToken, hsc, hcl] using hk
          exact Or.inl (hsub1 k hk2)

/-- **C9.** Validation results are stored only under the token digest: when
every key of the cache lies in the range of the digest function, the same is
true after any `verifyOAuthToken` call (the only key a call can add is
`hash token`), and consequently a raw credential that is not a digest value of
any token never occurs among the cache keys. -/
theorem cache_keys_are_digests_only {U : Type} (cfg : Bool)
    (hash : String → String) (decodePayload : List Char → Option JwtPayload)
    (ttl : Int) (maxSize : Nat) (cache : Cache U) (token : String) (now : Int)
    (provider : ProviderResult U)
    (hkeys : ∀ k ∈ keysOf cache, ∃ t, k = hash t) :
    (∀ k ∈ keysOf (verifyOAuthToken cfg hash decodePayload ttl maxSize cache
      token now provider).cache, ∃ t, k = hash t) ∧
    (∀ T, (∀ t, hash t ≠ T) → T ∉ keysOf (verifyOAuthToken cfg hash
      decodePayload ttl maxSize cache token now provider).cache) := by
  have main := verify_cache_cases cfg hash decodePayload ttl maxSize cache token
    now provider
  refine ⟨fun k hk => ?_, fun T hT hmem => ?_⟩
  · rcases main k hk with h | h
    · exact hkeys k h
    · exact ⟨token, h⟩
  · rcases main T hmem with h | h
    · obtain ⟨t, hTt⟩ := hkeys T h
      exact hT t hTt.symm
    · exact hT token h.symm

/-- Witness for `cache_keys_are_digests_only`: starting from the empty cache, a
successful validation stores only the digest `"D"`, and a non-digest raw token
is not among the keys. -/
theorem cache_keys_are_digests_only_witness :
    (∀ k ∈ keysOf (verifyOAuthToken true (fun _ : String => "D") (fun _ => none)
      120000 1000 ([] : Cache Nat) "tok" 0 (.ok 7)).cache,
      ∃ t : String, k = (fun _ : String => "D") t) ∧
    (∀ T, (∀ t : String, (fun _ : String => "D") t ≠ T) →
      T ∉ keysOf (verifyOAuthToken true (fun _ : String => "D") (fun _ => none)
        120000 1000 ([] : Cache Nat) "tok" 0 (.ok 7)).cache) :=
  cache_keys_are_digests_only true (fun _ : String => "D") (fun _ => none)
    120000 1000 [] "tok" 0 (.ok 7) (by simp [keysOf])

/-- **C8 (amended).** When `verifyOAuthToken` reached the identity provider and
the provider rejected the token (or the fetch threw), the call returns Invalid
(`null`), no key is added to the cache (negative results are never cached), and
the cache is unchanged except that an already-expired entry for this token
digest may have been removed by the lazy-expiry check of the same call. -/
theorem provider_failure_invalid_no_negative_caching {U : Type} (cfg : Bool)
    (hash : String → String) (decodePayload : List Char → Option JwtPayload)
    (ttl : Int) (maxSize : Nat) (cache : Cache U) (token : String) (now : Int)
    (provider : ProviderResult U)
    (hcalled : (verifyOAuthToken cfg hash decodePayload ttl maxSize cache token
      now provider).providerCalled = true)
    (hfail : ∀ u, provider ≠ ProviderResult.ok u) :
    (verifyOAuthToken cfg hash decodePayload ttl maxSize cache token now
      provider).result = none ∧
    (∀ k ∈ keysOf (verifyOAuthToken cfg hash decodePayload ttl maxSize cache
      token now provider).cache, k ∈ keysOf cache) ∧
    ((verifyOAuthToken cfg hash decodePayload ttl maxSize cache token now
        provider).cache = cache ∨
      ∃ en, mapGet cache (hash token) = some en ∧ en.expiry ≤ now ∧
        (verifyOAuthToken cfg hash decodePayload ttl maxSize cache token now
          provider).cache = mapDelete cache (hash token)) := by
  cases cfg with
  | false => simp [verifyOAuthToken] at hcalled
  | true =>
    cases hsc : (jsTruthyInt (getTokenExpiry decodePayload token) &&
        decide ((getTokenExpiry decodePayload token).getD 0 ≤ now)) with
    | true => simp [verifyOAuthToken, hsc] at hcalled
    | false =>
      rcases hcl : cacheLookup cache (hash token) now with ⟨r, c1⟩
      cases r with
      | some en => simp [verifyOAuthToken, hsc, hcl] at hcalled
      | none =>
        have hcases := cacheLookup_miss_cases cache (hash token) now c1 hcl
        have hsub : ∀ k ∈ keysOf c1, k ∈ keysOf cache := by
          rcases hcases with h | ⟨en, _, _, hdel⟩
          · rw [h]
            exact fun k hk => hk
          · rw [hdel]
            exact fun k hk => mem_keysOf_mapDelete cache (hash token) k hk
        cases provider with
        | ok u => exact absurd rfl (hfail u)
        | rejected s =>
          have hout : verifyOAuthToken true hash decodePayload ttl maxSize cache
              token now (.rejected s) = ⟨none, c1, true⟩ := by
            simp [verifyOAuthToken, hsc, hcl]
          rw [hout]
          exact ⟨rfl, hsub, hcases⟩
        | netError =>
          have hout : verifyOAuthToken true hash decodePayload ttl maxSize cache
              token now .netError = ⟨none, c1, true⟩ := by
            simp [verifyOAuthToken, hsc, hcl]
          rw [hout]
          exact ⟨rfl, hsub, hcases⟩

/-- Witness for `provider_failure_invalid_no_negative_caching`: empty cache,
opaque token, provider rejects with status 401; the result is Invalid and the
cache still empty. -/
theorem provider_failure_invalid_no_negative_caching_witness :
    (verifyOAuthToken true (fun _ => "D") (fun _ => none) 120000 1000
      ([] : Cache Nat) "tok" 0 (.rejected 401)).result = none ∧
    (∀ k ∈ keysOf (verifyOAuthToken true (fun _ => "D") (fun _ => none) 120000
      1000 ([] : Cache Nat) "tok" 0 (.rejected 401)).cache,
      k ∈ keysOf ([] : Cache Nat)) ∧
    ((verifyOAuthToken true (fun _ => "D") (fun _ => none) 120000 1000
        ([] : Cache Nat) "tok" 0 (.rejected 401)).cache = [] ∨
      ∃ en, mapGet ([] : Cache Nat) "D" = some en ∧ en.expiry ≤ 0 ∧
        (verifyOAuthToken true (fun _ => "D") (fun _ => none) 120000 1000
          ([] : Cache Nat) "tok" 0 (.rejected 401)).cache =
          mapDelete ([] : Cache Nat) "D") :=
  provider_failure_invalid_no_negative_caching true (fun _ => "D")
    (fun _ => none) 120000 1000 [] "tok" 0 (.rejected 401) (by decide)
    (fun u h => by cases h)

/-- **C8 counterexample.** The literal claim "the cache is left unchanged" on a
provider rejection fails: with an already-expired entry stored under the token
digest, the rejected call returns a cache that lost that entry. -/
theorem provider_rejection_can_remove_stale_entry :
    (verifyOAuthToken true (fun _ => "D") (fun _ => none) 120000 1000
      ([("D", ⟨(7 : Nat), 5⟩)]) "tok" 10 (.rejected 401)).providerCalled = true ∧
    (verifyOAuthToken true (fun _ => "D") (fun _ => none) 120000 1000
      ([("D", ⟨(7 : Nat), 5⟩)]) "tok" 10 (.rejected 401)).result = none ∧
    (verifyOAuthToken true (fun _ => "D") (fun _ => none) 120000 1000
      ([("D", ⟨(7 : Nat), 5⟩)]) "tok" 10 (.rejected 401)).cache = [] ∧
    ([("D", ⟨(7 : Nat), 5⟩)] : Cache Nat) ≠ [] := by decide

/-- **C3 counterexample.** A second Terminate for an already-removed session id
is an error: with `"s1"` no longer in the registry (only `"s2"` remains), a
`DELETE /mcp` carrying `mcp-session-id: s1` is answered with the 400 failure
response, not treated as a no-op. -/
theorem terminate_after_close_is_an_error :
    handleDelete [("s2", 5)] (some "s1") = .invalid 400 := by decide

/-- **C3 (amended).** After a session's registry entry is removed, a further
`DELETE /mcp` with that id is rejected with 400 (like any unknown session id);
only the registry removal inside the transport close handler is idempotent —
`onclose` for an id that is no longer registered leaves the registry
unchanged and raises no error. -/
theorem terminate_unknown_session_behavior (reg : Registry) (s : String)
    (habs : mapHas reg s = false) :
    handleDelete reg (some s) = .invalid 400 ∧
    oncloseHandler reg (some s) = reg := by
  constructor
  · simp [handleDelete, habs]
  · simp [oncloseHandler, habs]

/-- Witness for `terminate_unknown_session_behavior` at a registry holding only
`"s2"` and the terminated id `"s1"`. -/
theorem terminate_unknown_session_behavior_witness :
    handleDelete [("s2", 5)] (some "s1") = .invalid 400 ∧
    oncloseHandler [("s2", 5)] (some "s1") = [("s2", 5)] :=
  terminate_unknown_session_behavior [("s2", 5)] "s1" (by decide)

/-- **C4 counterexample.** An initialize `POST /mcp` carrying a session id
header is not always rejected: when the id is registered, the request is
forwarded to that session's existing transport (handle 7 here) instead of
producing the 400 error. -/
theorem initialize_with_known_session_is_reused :
    handlePost [("s1", 7)] (some "s1") true = .reuse 7 := by decide

/-- **C4 (amended).** `POST /mcp` routing: a request carrying a non-empty
session id that is not registered is rejected with 400 and JSON-RPC code
-32000 with a null id (initialize body or not); a registered id is forwarded
to that session's transport; a new session is created exactly when the session
id header is absent or empty and the body is an initialize message. -/
theorem post_routing_session_id_rules (reg : Registry) (sid : Option String)
    (isInit : Bool) :
    (∀ s, sid = some s → s ≠ "" → mapHas reg s = false →
      handlePost reg sid isInit = .reject 400 (-32000) true) ∧
    (∀ s t, sid = some s → s ≠ "" → mapGet reg s = some t →
      handlePost reg sid isInit = .reuse t) ∧
    (handlePost reg sid isInit = .create ↔ jsTruthyStr sid = false ∧
      isInit = true) := by
  refine ⟨?_, ?_, ?_⟩
  · rintro s rfl hs habs
    simp [handlePost, jsTruthyStr, hs, habs]
  · rintro s t rfl hs hget
    simp [handlePost, jsTruthyStr, hs, mapHas, hget]
  · cases htr : jsTruthyStr sid with
    | true =>
      cases hhas : mapHas reg (sid.getD "") with
      | true => simp [handlePost, htr, hhas]
      | false => simp [handlePost, htr, hhas]
    | false =>
      cases isInit with
      | true => simp [handlePost, htr]
      | false => simp [handlePost, htr]

/-- Witness for `post_routing_session_id_rules`: the unknown id `"s1"` is
rejected with the JSON-RPC error, the registered id `"s2"` is forwarded to
transport 9, and a create outcome forces an absent-or-empty id plus an
initialize body. -/
theorem post_routing_session_id_rules_witness :
    handlePost [("s2", 9)] (some "s1") true = .reject 400 (-32000) true ∧
    handlePost [("s2", 9)] (some "s2") false = .reuse 9 ∧
    (handlePost [("s2", 9)] none true = .create ↔
      jsTruthyStr (none : Option String) = false ∧ true = true) :=
  ⟨(post_routing_session_id_rules [("s2", 9)] (some "s1") true).1 "s1" rfl
      (by decide) (by decide),
    (post_routing_session_id_rules [("s2", 9)] (some "s2") false).2.1 "s2" 9 rfl
      (by decide) (by decide),
    (post_routing_session_id_rules [("s2", 9)] none true).2.2⟩

/-- Helper: on a configured gateway, a non-exempt `/mcp` request whose
authorization header strips down to the empty token is answered 401 with the
no-token challenge, and the validator is never invoked. -/
theorem gate_mcp_blank_401 (url : String) (verifyOk : String → Bool)
    (req : Request) (h1 : (req.path == "/health") = false)
    (hw : strStartsWith req.path "/.well-known/" = false)
    (h3 : (req.method == "OPTIONS") = false)
    (hpath : strStartsWith req.path "/mcp" = true)
    (hblank : extractToken (req.authorization.getD "") = "") :
    authMiddleware true url verifyOk req =
      ⟨false, some 401, some (challengeNoToken url), none⟩ := by
  have h5 : (extractToken (req.authorization.getD "") == "") = true := by
    simp [hblank]
  simp [authMiddleware, h1, hw, h3, hpath, h5]

/-- **C5 counterexample.** `verifyOAuthToken` itself applies no emptiness
check: called directly with an empty or whitespace-only token (and a
configured domain), it hashes the token, misses the cache, and does call the
identity provider, contradicting the claimed rejection before any provider
call. -/
theorem verify_empty_token_calls_provider :
    (verifyOAuthToken true (fun s => s ++ "h") (fun _ => none) 120000 1000
      ([] : Cache Nat) "" 0 (.rejected 401)).providerCalled = true ∧
    (verifyOAuthToken true (fun s => s ++ "h") (fun _ => none) 120000 1000
      ([] : Cache Nat) " " 0 (.rejected 401)).providerCalled = true := by decide

/-- **C5 (amended).** The emptiness rejection lives in the auth middleware, not
in `verifyOAuthToken`: any `/mcp` request whose authorization header value
strips and trims down to the empty string is answered 401 immediately, and the
validator is never invoked — so no hashing, cache access or provider call
happens for such input. -/
theorem gate_rejects_blank_token_before_verify (url : String)
    (verifyOk : String → Bool) (req : Request)
    (hpath : strStartsWith req.path "/mcp" = true) (hh : req.path ≠ "/health")
    (hw : strStartsWith req.path "/.well-known/" = false)
    (hm : req.method ≠ "OPTIONS")
    (hblank : extractToken (req.authorization.getD "") = "") :
    authMiddleware true url verifyOk req =
      ⟨false, some 401, some (challengeNoToken url), none⟩ :=
  gate_mcp_blank_401 url verifyOk req (beq_eq_false_iff_ne.mpr hh) hw
    (beq_eq_false_iff_ne.mpr hm) hpath hblank

/-- Witness for `gate_rejects_blank_token_before_verify`: a whitespace-only
bearer credential on `POST /mcp` gets the 401 no-token response with no
validator call. -/
theorem gate_rejects_blank_token_before_verify_witness :
    authMiddleware true "U" (fun _ => true) ⟨"/mcp", "POST", some "Bearer   "⟩ =
      ⟨false, some 401, some (challengeNoToken "U"), none⟩ :=
  gate_rejects_blank_token_before_verify "U" (fun _ => true)
    ⟨"/mcp", "POST", some "Bearer   "⟩ (by decide) (by decide) (by decide)
    (by decide) (by decide)

/-- **C6 counterexample.** A request to a path outside both the exempt set and
`/mcp` (here `GET /foo`) carries no credential, yet the gate forwards it
(`next()` is called, no 401), contradicting the claim that every non-exempt
request without a bearer credential is answered 401. -/
theorem gate_forwards_unprotected_path_without_credential :
    authMiddleware true "U" (fun _ => false) ⟨"/foo", "GET", none⟩ =
      ⟨true, none, none, none⟩ := by decide

/-- **C6 (amended).** The exempt paths (`/health`, every `/.well-known/...`
path, and OPTIONS preflight) pass the gate with no credential required; a
non-exempt request whose path starts with `/mcp` and that carries no
authorization header is answered 401 with the `WWW-Authenticate` challenge
pointing at the protected-resource metadata document and is not forwarded; a
request outside both sets also passes the gate without authentication. -/
theorem gate_exemption_and_mcp_challenge (url : String)
    (verifyOk : String → Bool) :
    (∀ req : Request,
      (req.path == "/health" || strStartsWith req.path "/.well-known/" ||
        req.method == "OPTIONS") = true →
      authMiddleware true url verifyOk req = ⟨true, none, none, none⟩) ∧
    (∀ path method : String, strStartsWith path "/mcp" = true →
      path ≠ "/health" → strStartsWith path "/.well-known/" = false →
      method ≠ "OPTIONS" →
      authMiddleware true url verifyOk ⟨path, method, none⟩ =
        ⟨false, some 401, some (challengeNoToken url), none⟩) ∧
    (∀ req : Request,
      (req.path == "/health" || strStartsWith req.path "/.well-known/" ||
        req.method == "OPTIONS") = false →
      strStartsWith req.path "/mcp" = false →
      authMiddleware true url verifyOk req = ⟨true, none, none, none⟩) := by
  refine ⟨?_, ?_, ?_⟩
  · intro req hex
    simp [authMiddleware, hex]
  · intro path method hpath hh hw hm
    exact gate_mcp_blank_401 url verifyOk ⟨path, method, none⟩
      (beq_eq_false_iff_ne.mpr hh) hw (beq_eq_false_iff_ne.mpr hm) hpath
      (by decide : extractToken ((none : Option String).getD "") = "")
  · intro req hex hmcp
    simp only [authMiddleware, hex, Bool.false_eq_true, if_false, hmcp]

/-- Witness for `gate_exemption_and_mcp_challenge`: `/health` and a well-known
discovery path pass with no header, `POST /mcp` without a header draws the 401
challenge, and an unrelated path passes the gate. -/
theorem gate_exemption_and_mcp_challenge_witness :
    authMiddleware true "U" (fun _ => false) ⟨"/health", "GET", none⟩ =
      ⟨true, none, none, none⟩ ∧
    authMiddleware true "U" (fun _ => false)
      ⟨"/.well-known/oauth-protected-resource", "GET", none⟩ =
      ⟨true, none, none, none⟩ ∧
    authMiddleware true "U" (fun _ => false) ⟨"/mcp", "POST", none⟩ =
      ⟨false, some 401, some (challengeNoToken "U"), none⟩ ∧
    authMiddleware true "U" (fun _ => false) ⟨"/bar", "GET", none⟩ =
      ⟨true, none, none, none⟩ :=
  ⟨(gate_exemption_and_mcp_challenge "U" (fun _ => false)).1
      ⟨"/health", "GET", none⟩ (by decide),
    (gate_exemption_and_mcp_challenge "U" (fun _ => false)).1
      ⟨"/.well-known/oauth-protected-resource", "GET", none⟩ (by decide),
    (gate_exemption_and_mcp_challenge "U" (fun _ => false)).2.1 "/mcp" "POST"
      (by decide) (by decide) (by decide) (by decide),
    (gate_exemption_and_mcp_challenge "U" (fun _ => false)).2.2
      ⟨"/bar", "GET", none⟩ (by decide) (by decide)⟩

/-- **C10.** On a protected `/mcp` request, the token handed to the validator
is exactly the authorization header value with the first occurrence of
`'Bearer '` removed and surrounding whitespace trimmed; a header of a
different scheme is not rejected at the gate — its full value is forwarded as
the token. -/
theorem gate_strips_first_bearer_only (url : String) (verifyOk : String → Bool)
    (method H : String) (hm : method ≠ "OPTIONS") (hne : extractToken H ≠ "") :
    (authMiddleware true url verifyOk
      ⟨"/mcp", method, some H⟩).verifiedToken =
      some (String.mk (jsTrim (removeFirstOcc H.toList "Bearer ".toList))) := by
  have h1 : (("/mcp" : String) == "/health") = false := by decide
  have hw : strStartsWith "/mcp" "/.well-known/" = false := by decide
  have hpath : strStartsWith "/mcp" "/mcp" = true := by decide
  have h3 : (method == "OPTIONS") = false := beq_eq_false_iff_ne.mpr hm
  have h5 : (extractToken H == "") = false := beq_eq_false_iff_ne.mpr hne
  have hgoal : (authMiddleware true url verifyOk
      ⟨"/mcp", method, some H⟩).verifiedToken = some (extractToken H) := by
    cases hv : verifyOk (extractToken H) with
    | true => simp [authMiddleware, h1, hw, hpath, h3, h5, hv]
    | false => simp [authMiddleware, h1, hw, hpath, h3, h5, hv]
  exact hgoal

/-- Witness for `gate_strips_first_bearer_only`: the header `Basic abc`
contains no `'Bearer '` substring, so its full value is handed to the
validator. -/
theorem gate_strips_first_bearer_only_witness :
    (authMiddleware true "U" (fun _ => true)
      ⟨"/mcp", "POST", some "Basic abc"⟩).verifiedToken =
      some (String.mk (jsTrim (removeFirstOcc "Basic abc".toList
        "Bearer ".toList))) ∧
    String.mk (jsTrim (removeFirstOcc "Basic abc".toList "Bearer ".toList)) =
      "Basic abc" :=
  ⟨gate_strips_first_bearer_only "U" (fun _ => true) "POST" "Basic abc"
      (by decide) (by decide),
    by decide⟩

end ShopifyGateway
